import Mathlib

/-!
Shallow embedding of the core of `ccct.py` (credit card transaction
categorizer): the `Allocation` engine, the `Transaction` record validation,
the interactive allocation loop `_get_allocations`, and the reconciliation
pipeline `_allocate_ofx_transactions` / `_write_ofx_transactions`.

Monetary values are modelled as exact rationals; the Python `round(x, 2)`
(round half to even) is modelled by `round2`.  Python strings that may be
`None` are modelled as `Option String`.
-/

namespace Ccct

/-- Round half to even on an exact rational, as the Python builtin `round`
behaves on exactly representable values. -/
def roundHalfEven (q : ℚ) : ℤ :=
  if q - ⌊q⌋ < 1/2 then ⌊q⌋
  else if 1/2 < q - ⌊q⌋ then ⌊q⌋ + 1
  else if ⌊q⌋ % 2 = 0 then ⌊q⌋ else ⌊q⌋ + 1

/-- the Python `round(x, 2)`: round to two decimal places, half to even. -/
def round2 (q : ℚ) : ℚ := (roundHalfEven (q * 100) : ℚ) / 100

/-- `q` is a whole number of cents (an integer multiple of `0.01`). -/
def isCent (q : ℚ) : Prop := ∃ n : ℤ, q = (n : ℚ) / 100

theorem roundHalfEven_intCast (n : ℤ) : roundHalfEven (n : ℚ) = n := by
  unfold roundHalfEven
  rw [Int.floor_intCast]
  norm_num

theorem round2_cent {q : ℚ} (h : isCent q) : round2 q = q := by
  obtain ⟨n, rfl⟩ := h
  unfold round2
  have h100 : ((n : ℚ) / 100) * 100 = (n : ℚ) := by
    field_simp
  rw [h100, roundHalfEven_intCast]

theorem isCent_zero : isCent 0 := ⟨0, by norm_num⟩

theorem isCent_add {p q : ℚ} (hp : isCent p) (hq : isCent q) : isCent (p + q) := by
  obtain ⟨n, rfl⟩ := hp
  obtain ⟨m, rfl⟩ := hq
  exact ⟨n + m, by push_cast; ring⟩

theorem isCent_neg {p : ℚ} (hp : isCent p) : isCent (-p) := by
  obtain ⟨n, rfl⟩ := hp
  exact ⟨-n, by push_cast; ring⟩

theorem isCent_sub {p q : ℚ} (hp : isCent p) (hq : isCent q) : isCent (p - q) := by
  rw [sub_eq_add_neg]
  exact isCent_add hp (isCent_neg hq)

/-- The possible shapes of the optional `amount` string argument of
`Allocation.allocate_amount`: a string that `float()` parses to the value
`q`, or a string that `float()` rejects with `ValueError`. -/
inductive AmountArg where
  | num (q : ℚ)
  | invalid
deriving DecidableEq

/-- `ccct.Allocation`: mutable per-transaction allocation state.  `cols` is
the class-level `ALLOC_COLUMNS` category set (assumed initialized; the
uninitialized case is modelled by `Allocation.init?`). -/
structure Allocation where
  cols : List String
  allocation : List ℚ
  negative : Bool
  amount_orig : ℚ
  amount_curr : ℚ
deriving DecidableEq

/-- `Allocation.__init__` for an initialized category set. -/
def Allocation.init (cols : List String) (amount : ℚ) : Allocation :=
  { cols := cols
    allocation := List.replicate cols.length 0
    amount_orig := -amount
    amount_curr := -amount
    negative := decide (-amount < 0) }

/-- `Allocation.__init__` including the uninitialized-class failure:
`None` columns raise `ValueError`, modelled as `none`. -/
def Allocation.init? (cols : Option (List String)) (amount : ℚ) : Option Allocation :=
  match cols with
  | none => none
  | some cs => some (Allocation.init cs amount)

/-- `Allocation.to_list`: zero entries render as blank (`none`). -/
def Allocation.to_list (a : Allocation) : List (Option ℚ) :=
  a.allocation.map (fun x => if x = 0 then none else some x)

/-- `Allocation.get_allocations_sum`. -/
def Allocation.get_allocations_sum (a : Allocation) : ℚ :=
  round2 a.allocation.sum

/-- The clamp, recovery and commit tail of `allocate_amount` (the code
after the sign check): clamp `x` to the current outstanding amount, add the
currently allocated amount back, subtract `x` rounded to 2 decimals, and
store `x` at `index`. -/
def Allocation.commit (a : Allocation) (index : ℕ) (x : ℚ) : Allocation :=
  let x :=
    if a.negative = true ∧ x < a.amount_curr then a.amount_curr
    else if a.negative = false ∧ a.amount_curr < x then a.amount_curr
    else x
  let recovered := a.amount_curr + a.allocation.getD index 0
  { a with
    amount_curr := round2 (recovered - x)
    allocation := a.allocation.set index x }

/-- `Allocation.allocate_amount`.  The Python method mutates in place and
returns `None`; it raises no exception, so it is modelled as a total
function returning the next state.  An omitted amount argument is `none`;
an unparseable amount string is `some AmountArg.invalid`; a parseable one
is `some (AmountArg.num q)`. -/
def Allocation.allocate_amount (a : Allocation) (category : String)
    (amount : Option AmountArg) : Allocation :=
  if category ∈ a.cols then
    let index := a.cols.indexOf category
    let parsed : Option ℚ :=
      match amount with
      | none => some a.amount_curr
      | some (AmountArg.num q) => some q
      | some AmountArg.invalid => none
    match parsed with
    | none => a
    | some x =>
        if (a.negative = true ∧ 0 < x) ∨ (a.negative = false ∧ x < 0) then a
        else Allocation.commit a index x
  else a

/-- A sequence of `allocate_amount` calls applied in order. -/
def Allocation.run (a : Allocation) (calls : List (String × Option AmountArg)) : Allocation :=
  calls.foldl (fun s c => s.allocate_amount c.1 c.2) a

/-- An `ofxtools` `Decimal` amount: an exact decimal carrying both its
literal text (what the Python `str` returns, used by `Transaction.to_list`)
and its numeric value (used by the sign checks and the allocation
arithmetic). -/
structure Decimal where
  text : String
  val : ℚ
deriving DecidableEq

/-- The canonical worksheet column order `Transaction.TRANSACTION_COLUMNS`. -/
def TRANSACTION_COLUMNS : List String :=
  ["FITID", "DTPOSTED", "TRNTYPE", "TRNAMT", "NAME", "MEMO"]

/-- A parsed OFX statement entry as handed to `Transaction.__init__`:
`fitid`, `trntype` are text, `dtposted` is already rendered to its
ISO-8601 `isoformat()` string, `name` and `memo` may be `None`. -/
structure RawEntry where
  fitid : String
  dtposted : String
  trntype : String
  trnamt : Decimal
  name : Option String
  memo : Option String
deriving DecidableEq

/-- `ccct.Transaction` after successful construction. -/
structure Transaction where
  fitid : String
  dtposted : String
  trntype : String
  trnamt : Decimal
  name : Option String
  memo : Option String
  allocation : Allocation
deriving DecidableEq

/-- `Transaction.__init__`: copies the parsed fields, constructs the
`Allocation` (which fails if the category set is uninitialized), then
validates the direction and the direction/sign convention, raising
`ValueError` (modelled as `Except.error`) on violation. -/
def Transaction.make (cols : Option (List String)) (e : RawEntry) :
    Except String Transaction :=
  match Allocation.init? cols e.trnamt.val with
  | none => Except.error "Allocation class not initialized. Call `initialize` first."
  | some alloc =>
    if e.trntype ≠ "CREDIT" ∧ e.trntype ≠ "DEBIT" then
      Except.error "Error: Unknown transaction type."
    else if e.trntype = "CREDIT" ∧ e.trnamt.val < 0 then
      Except.error "Error: Negative credit detected!"
    else if e.trntype = "DEBIT" ∧ 0 < e.trnamt.val then
      Except.error "Error: Positive debit detected!"
    else
      Except.ok { fitid := e.fitid, dtposted := e.dtposted, trntype := e.trntype,
                  trnamt := e.trnamt, name := e.name, memo := e.memo,
                  allocation := alloc }

/-- `Transaction.to_list`: the six worksheet cells, with the amount
rendered by `str` (the `Decimal` literal) and `None` fields kept as
`none`. -/
def Transaction.to_list (t : Transaction) : List (Option String) :=
  [some t.fitid, some t.dtposted, some t.trntype, some t.trnamt.text, t.name, t.memo]

/-!  The interactive allocation loop `_get_allocations`.  Each prompt
answer is `user_input.split()`; we model a line by its first two tokens:
no tokens, one token, or a first token plus an amount-shaped second token
(`?`, a parseable number, or an unparseable string). -/

/-- The second token of an allocation prompt answer. -/
inductive AmtToken where
  | qmark
  | num (q : ℚ)
  | invalid
deriving DecidableEq

/-- One `user_input.split()` result, truncated to the tokens the loop
reads. -/
inductive InputLine where
  | empty
  | one (col : String)
  | two (col : String) (amt : AmtToken)
deriving DecidableEq

/-- State of the `while amount != 0` loop in `_get_allocations`. -/
structure AllocLoopState where
  allocations : List ℚ
  amount : ℚ
deriving DecidableEq

/-- One iteration body of the `_get_allocations` loop: a no-op
(`continue`) on the `?` commands, unknown categories, unparseable or
wrong-signed amounts; otherwise clamp, recover the previous allocation of
the category, and commit. -/
def getAllocStep (cols : List String) (negative : Bool)
    (st : AllocLoopState) (line : InputLine) : AllocLoopState :=
  match line with
  | InputLine.empty => st
  | InputLine.one col =>
      if col = "?" then st
      else if col ∈ cols then
        let i := cols.indexOf col
        let amt := st.amount
        let recovered := st.amount + st.allocations.getD i 0
        { allocations := st.allocations.set i amt
          amount := round2 (recovered - amt) }
      else st
  | InputLine.two col a =>
      if col = "?" then st
      else if col ∈ cols then
        let i := cols.indexOf col
        match a with
        | AmtToken.qmark => st
        | AmtToken.invalid => st
        | AmtToken.num q =>
            if (negative = true ∧ 0 < q) ∨ (negative = false ∧ q < 0) then st
            else
              let amt :=
                if negative = true ∧ q < st.amount then st.amount
                else if negative = false ∧ st.amount < q then st.amount
                else q
              let recovered := st.amount + st.allocations.getD i 0
              { allocations := st.allocations.set i amt
                amount := round2 (recovered - amt) }
      else st

/-- The `while amount != 0` loop of `_get_allocations`, consuming a finite
script of prompt answers; the guard is checked before each iteration. -/
def getAllocRun (cols : List String) (negative : Bool) :
    AllocLoopState → List InputLine → AllocLoopState
  | st, [] => st
  | st, l :: ls =>
      if st.amount = 0 then st
      else getAllocRun cols negative (getAllocStep cols negative st l) ls

/-- `_get_allocations(amount)` driven by a finite operator script.
`none`: the loop has not terminated within the script.
`some (Except.error _)`: the final integrity assertion raised.
`some (Except.ok v)`: the returned output vector (blank for zero). -/
def getAllocations (cols : List String) (amount : ℚ) (script : List InputLine) :
    Option (Except String (List (Option ℚ))) :=
  let negative : Bool := decide (amount < 0)
  let final := getAllocRun cols negative
    { allocations := List.replicate cols.length 0, amount := amount } script
  if final.amount = 0 then
    if round2 final.allocations.sum ≠ amount then
      some (Except.error "Error: Transaction incorrectly allocated")
    else
      some (Except.ok (final.allocations.map (fun x => if x = 0 then none else some x)))
  else none

/-!  The reconciliation pipeline. -/

/-- The row padding of `_get_statement_worksheet_transactions`: right-pad
a fetched row with `None` up to the canonical column count (a no-op on
rows already that long). -/
def padRow (row : List (Option String)) : List (Option String) :=
  row ++ List.replicate (TRANSACTION_COLUMNS.length - row.length) none

/-- `_get_statement_worksheet_transactions` on the fetched cell values:
drop the header row, then pad every remaining row. -/
def getStatementWorksheetTransactions (fetched : List (List (Option String))) :
    List (List (Option String)) :=
  (fetched.drop 1).map padRow

/-- `_allocate_ofx_transactions`: iterate the parsed transactions in
order, skip any whose full `to_list` tuple already appears among the
worksheet rows, and append `to_list + allocations` for the rest.  The
interactive `_get_allocations` result for each new transaction is supplied
by the collaborator function `alloc`. -/
def allocateOfxTransactions (worksheet : List (List (Option String)))
    (transactions : List Transaction)
    (alloc : Transaction → List (Option String)) : List (List (Option String)) :=
  transactions.foldl
    (fun acc t => if t.to_list ∈ worksheet then acc else acc ++ [t.to_list ++ alloc t])
    []

/-- `_write_ofx_transactions` hands `_ofx_transactions` to the sheet API
verbatim as the update body: no reordering of rows happens between
allocation and writing. -/
def writeOfxTransactionsBody (ofx_transactions : List (List (Option String))) :
    List (List (Option String)) :=
  ofx_transactions

/-!  Helper lemmas about list surgery. -/

theorem getD_mem (l : List ℚ) (i : ℕ) (h : i < l.length) : l.getD i 0 ∈ l := by
  induction l generalizing i with
  | nil => simp at h
  | cons a t ih =>
    cases i with
    | zero => exact List.mem_cons_self _ _
    | succ n => exact List.mem_cons_of_mem _ (ih n (by simpa using h))

theorem getD_set_self (l : List ℚ) (i : ℕ) (x : ℚ) (h : i < l.length) :
    (l.set i x).getD i 0 = x := by
  induction l generalizing i with
  | nil => simp at h
  | cons a t ih =>
    cases i with
    | zero => rfl
    | succ n =>
      simp only [List.set_cons_succ, List.getD_cons_succ]
      exact ih n (by simpa using h)

theorem sum_set_getD (l : List ℚ) (i : ℕ) (x : ℚ) (h : i < l.length) :
    (l.set i x).sum = l.sum - l.getD i 0 + x := by
  induction l generalizing i with
  | nil => simp at h
  | cons a t ih =>
    cases i with
    | zero =>
      simp only [List.set_cons_zero, List.sum_cons, List.getD_cons_zero]
      ring
    | succ n =>
      simp only [List.set_cons_succ, List.sum_cons, List.getD_cons_succ]
      rw [ih n (by simpa using h)]
      ring

theorem indexOf_lt_length_of_mem {cat : String} {l : List String} (h : cat ∈ l) :
    l.indexOf cat < l.length := by
  induction l with
  | nil => simp at h
  | cons a t ih =>
    rw [List.indexOf_cons]
    by_cases hac : (a == cat) = true
    · simp [hac]
    · rw [Bool.not_eq_true] at hac
      rw [hac, cond_false]
      rcases List.mem_cons.mp h with rfl | hmem
      · simp at hac
      · simpa using Nat.succ_lt_succ (ih hmem)

/-!  The reachable-state invariant of the allocation engine, relative to
the sign-flipped original amount `t`, restricted to whole-cent states.
This backs the (amended) global invariant claim. -/

/-- Invariant: original bookkeeping fields are consistent, the state is
cent-valued, `amount_curr + sum(allocation) = t` holds exactly, and all
stored amounts share the sign of `t`. -/
structure Inv (t : ℚ) (s : Allocation) : Prop where
  orig : s.amount_orig = t
  neg : s.negative = decide (t < 0)
  len : s.allocation.length = s.cols.length
  sumEq : s.amount_curr + s.allocation.sum = t
  cent_curr : isCent s.amount_curr
  cent_alloc : ∀ q ∈ s.allocation, isCent q
  sign_alloc : ∀ q ∈ s.allocation, (t < 0 → q ≤ 0) ∧ (0 ≤ t → 0 ≤ q)
  sign_curr : (t < 0 → s.amount_curr ≤ 0) ∧ (0 ≤ t → 0 ≤ s.amount_curr)

theorem Inv.init (cols : List String) (a : ℚ) (ha : isCent a) :
    Inv (-a) (Allocation.init cols a) := by
  refine ⟨rfl, rfl, by simp [Allocation.init], ?_, isCent_neg ha, ?_, ?_, ?_⟩
  · simp [Allocation.init, List.sum_replicate]
  · intro q hq
    rw [List.eq_of_mem_replicate hq]
    exact isCent_zero
  · intro q hq
    rw [List.eq_of_mem_replicate hq]
    exact ⟨fun _ => le_refl 0, fun _ => le_refl 0⟩
  · exact ⟨fun h => le_of_lt h, fun h => h⟩

theorem Inv.commit {t : ℚ} {s : Allocation} (hs : Inv t s) {cat : String}
    (hmem : cat ∈ s.cols) {x : ℚ} (hx : isCent x)
    (hxneg : s.negative = true → x ≤ 0)
    (hxpos : s.negative = false → 0 ≤ x) :
    Inv t (Allocation.commit s (s.cols.indexOf cat) x) := by
  have hi : s.cols.indexOf cat < s.allocation.length := by
    rw [hs.len]; exact indexOf_lt_length_of_mem hmem
  have hneg_iff : s.negative = true ↔ t < 0 := by rw [hs.neg]; simp
  have hpos_iff : s.negative = false ↔ 0 ≤ t := by
    rw [hs.neg]; simp [not_lt]
  have hcurr_neg : s.negative = true → s.amount_curr ≤ 0 :=
    fun h => hs.sign_curr.1 (hneg_iff.mp h)
  have hcurr_pos : s.negative = false → 0 ≤ s.amount_curr :=
    fun h => hs.sign_curr.2 (hpos_iff.mp h)
  set i := s.cols.indexOf cat with hidef
  set p := s.allocation.getD i 0 with hpdef
  have hp_cent : isCent p := hs.cent_alloc _ (getD_mem _ _ hi)
  have hp_sign := hs.sign_alloc _ (getD_mem _ _ hi)
  set xc := if s.negative = true ∧ x < s.amount_curr then s.amount_curr
            else if s.negative = false ∧ s.amount_curr < x then s.amount_curr
            else x with hxcdef
  have hcommit : Allocation.commit s i x =
      { s with amount_curr := round2 (s.amount_curr + p - xc)
               allocation := s.allocation.set i xc } := rfl
  have hxc_cent : isCent xc := by
    rw [hxcdef]
    split
    · exact hs.cent_curr
    · split
      · exact hs.cent_curr
      · exact hx
  have hxcneg : s.negative = true → xc ≤ 0 := by
    intro h
    rw [hxcdef]
    split
    · exact hcurr_neg h
    · split
      · exact hcurr_neg h
      · exact hxneg h
  have hxcpos : s.negative = false → 0 ≤ xc := by
    intro h
    rw [hxcdef]
    split
    · exact hcurr_pos h
    · split
      · exact hcurr_pos h
      · exact hxpos h
  have hxc_ge_curr : s.negative = true → s.amount_curr ≤ xc := by
    intro h
    rw [hxcdef]
    split
    · exact le_refl _
    · next h1 =>
      split
      · exact le_refl _
      · rcases not_and_or.mp h1 with h3 | h3
        · exact absurd h h3
        · exact le_of_not_lt h3
  have hxc_le_curr : s.negative = false → xc ≤ s.amount_curr := by
    intro h
    rw [hxcdef]
    split
    · next h1 => exact absurd h1.1 (by rw [h]; simp)
    · next h1 =>
      split
      · exact le_refl _
      · next h2 =>
        rcases not_and_or.mp h2 with h3 | h3
        · exact absurd h h3
        · exact le_of_not_lt h3
  have hround : round2 (s.amount_curr + p - xc) = s.amount_curr + p - xc :=
    round2_cent (isCent_sub (isCent_add hs.cent_curr hp_cent) hxc_cent)
  rw [hcommit]
  refine ⟨hs.orig, hs.neg, by simpa [List.length_set] using hs.len, ?_, ?_, ?_, ?_, ?_⟩
  · show round2 (s.amount_curr + p - xc) + (s.allocation.set i xc).sum = t
    rw [hround, sum_set_getD _ _ _ hi, ← hpdef]
    have := hs.sumEq
    linarith
  · show isCent (round2 (s.amount_curr + p - xc))
    rw [hround]
    exact isCent_sub (isCent_add hs.cent_curr hp_cent) hxc_cent
  · intro q hq
    rcases List.mem_or_eq_of_mem_set hq with hmemq | rfl
    · exact hs.cent_alloc _ hmemq
    · exact hxc_cent
  · intro q hq
    rcases List.mem_or_eq_of_mem_set hq with hmemq | rfl
    · exact hs.sign_alloc _ hmemq
    · exact ⟨fun ht => hxcneg (hneg_iff.mpr ht), fun ht => hxcpos (hpos_iff.mpr ht)⟩
  · constructor
    · intro ht
      have h1 := hxc_ge_curr (hneg_iff.mpr ht)
      have h2 := hp_sign.1 ht
      show round2 (s.amount_curr + p - xc) ≤ 0
      rw [hround]
      linarith
    · intro ht
      have h1 := hxc_le_curr (hpos_iff.mpr ht)
      have h2 := hp_sign.2 ht
      show 0 ≤ round2 (s.amount_curr + p - xc)
      rw [hround]
      linarith

theorem Inv.step {t : ℚ} {s : Allocation} (hs : Inv t s) (cat : String)
    (amt : Option AmountArg)
    (hcent : ∀ q, amt = some (AmountArg.num q) → isCent q) :
    Inv t (s.allocate_amount cat amt) := by
  unfold Allocation.allocate_amount
  by_cases hmem : cat ∈ s.cols
  · rw [if_pos hmem]
    cases amt with
    | none =>
      show Inv t (if (s.negative = true ∧ 0 < s.amount_curr) ∨
          (s.negative = false ∧ s.amount_curr < 0) then s
        else Allocation.commit s (s.cols.indexOf cat) s.amount_curr)
      split
      · exact hs
      · next hsx =>
        refine hs.commit hmem hs.cent_curr ?_ ?_
        · intro h
          rcases not_or.mp hsx with ⟨h1, _⟩
          exact le_of_not_lt fun hlt => h1 ⟨h, hlt⟩
        · intro h
          rcases not_or.mp hsx with ⟨_, h2⟩
          exact le_of_not_lt fun hlt => h2 ⟨h, hlt⟩
    | some arg =>
      cases arg with
      | invalid => exact hs
      | num q =>
        show Inv t (if (s.negative = true ∧ 0 < q) ∨
            (s.negative = false ∧ q < 0) then s
          else Allocation.commit s (s.cols.indexOf cat) q)
        split
        · exact hs
        · next hsx =>
          refine hs.commit hmem (hcent q rfl) ?_ ?_
          · intro h
            rcases not_or.mp hsx with ⟨h1, _⟩
            exact le_of_not_lt fun hlt => h1 ⟨h, hlt⟩
          · intro h
            rcases not_or.mp hsx with ⟨_, h2⟩
            exact le_of_not_lt fun hlt => h2 ⟨h, hlt⟩
  · rw [if_neg hmem]
    exact hs

theorem Inv.run {t : ℚ} {s : Allocation} (hs : Inv t s)
    (calls : List (String × Option AmountArg))
    (hcent : ∀ c ∈ calls, ∀ q, c.2 = some (AmountArg.num q) → isCent q) :
    Inv t (s.run calls) := by
  induction calls generalizing s with
  | nil => exact hs
  | cons c cs ih =>
    exact ih (hs.step c.1 c.2 (hcent c (List.mem_cons_self _ _)))
      (fun d hd => hcent d (List.mem_cons_of_mem _ hd))

theorem all_zero_of_sum_zero {l : List ℚ} (h0 : ∀ q ∈ l, 0 ≤ q) (hs : l.sum = 0) :
    ∀ q ∈ l, q = 0 := by
  induction l with
  | nil => simp
  | cons a tl ih =>
    have hta : 0 ≤ a := h0 a (List.mem_cons_self _ _)
    have htl : ∀ q ∈ tl, 0 ≤ q := fun q hq => h0 q (List.mem_cons_of_mem _ hq)
    have hsum_tl : 0 ≤ tl.sum := List.sum_nonneg htl
    rw [List.sum_cons] at hs
    have ha : a = 0 := by linarith
    have ht : tl.sum = 0 := by linarith
    intro q hq
    rcases List.mem_cons.mp hq with rfl | hq2
    · exact ha
    · exact ih htl ht q hq2

/-- Under the invariant, every non-zero stored allocation strictly shares
the sign of the sign-flipped original amount `t`. -/
theorem Inv.sign_strict {t : ℚ} {s : Allocation} (hs : Inv t s) :
    ∀ q ∈ s.allocation, q ≠ 0 → ((0 < q ↔ 0 < t) ∧ (q < 0 ↔ t < 0)) := by
  intro q hq hq0
  rcases lt_trichotomy t 0 with ht | ht | ht
  · have h1 : q ≤ 0 := (hs.sign_alloc q hq).1 ht
    have h2 : q < 0 := lt_of_le_of_ne h1 hq0
    constructor
    · constructor
      · intro h; linarith
      · intro h; linarith
    · exact ⟨fun _ => ht, fun _ => h2⟩
  · subst ht
    have h0 : ∀ r ∈ s.allocation, 0 ≤ r := fun r hr => (hs.sign_alloc r hr).2 le_rfl
    have hc : 0 ≤ s.amount_curr := hs.sign_curr.2 le_rfl
    have hsum0 : s.allocation.sum = 0 := by
      have h1 : 0 ≤ s.allocation.sum := List.sum_nonneg h0
      have h2 := hs.sumEq
      linarith
    exact absurd (all_zero_of_sum_zero h0 hsum0 q hq) hq0
  · have h1 : 0 ≤ q := (hs.sign_alloc q hq).2 (le_of_lt ht)
    have h2 : 0 < q := lt_of_le_of_ne h1 (Ne.symm hq0)
    constructor
    · exact ⟨fun _ => ht, fun _ => h2⟩
    · constructor
      · intro h; linarith
      · intro h; linarith

/-- `_allocate_ofx_transactions` is the stable filter of the iterated
transactions followed by row assembly, in iteration order. -/
theorem allocateOfx_foldl_acc (worksheet : List (List (Option String)))
    (ts : List Transaction) (alloc : Transaction → List (Option String))
    (acc : List (List (Option String))) :
    ts.foldl
      (fun acc t => if t.to_list ∈ worksheet then acc else acc ++ [t.to_list ++ alloc t])
      acc
    = acc ++ (ts.filter fun t => decide (¬ t.to_list ∈ worksheet)).map
        (fun t => t.to_list ++ alloc t) := by
  induction ts generalizing acc with
  | nil => simp
  | cons t ts ih =>
    simp only [List.foldl_cons]
    by_cases h : t.to_list ∈ worksheet
    · rw [if_pos h, ih]
      simp [List.filter_cons, h]
    · rw [if_neg h, ih]
      simp [List.filter_cons, h]

/-- Ordering of assembled worksheet rows by their `DTPOSTED` cell (ISO
8601 strings compare chronologically, character by character). -/
def dtpostedLe (r1 r2 : List (Option String)) : Prop :=
  ((r1.getD 1 none).getD "").data ≤ ((r2.getD 1 none).getD "").data

/-- The `negative` flag of a freshly constructed allocation agrees with
the sign of its (sign-flipped) original amount. -/
theorem init_negative_iff (cols : List String) (a : ℚ) :
    (Allocation.init cols a).negative = true ↔ (Allocation.init cols a).amount_orig < 0 := by
  simp [Allocation.init]

/-!  Claim theorems. -/

/-- C5: a call to `allocate_amount` with an unknown category, an
unparseable amount string, or a wrong-signed amount (positive when the
sign-flipped original is negative, negative when it is non-negative)
raises no exception (the model is a total function) and leaves the whole
state, hence the remainder and every category value, unchanged. -/
theorem C5_invalid_noop (s : Allocation) (cat : String) (amt : Option AmountArg)
    (hneg : s.negative = true ↔ s.amount_orig < 0)
    (h : cat ∉ s.cols ∨ amt = some AmountArg.invalid ∨
         (∃ q, amt = some (AmountArg.num q) ∧
            ((s.amount_orig < 0 ∧ 0 < q) ∨ (0 ≤ s.amount_orig ∧ q < 0)))) :
    s.allocate_amount cat amt = s := by
  unfold Allocation.allocate_amount
  rcases h with h | rfl | ⟨q, rfl, hq⟩
  · rw [if_neg h]
  · by_cases hmem : cat ∈ s.cols
    · rw [if_pos hmem]
    · rw [if_neg hmem]
  · by_cases hmem : cat ∈ s.cols
    · rw [if_pos hmem]
      have hcond : (s.negative = true ∧ 0 < q) ∨ (s.negative = false ∧ q < 0) := by
        rcases hq with ⟨h1, h2⟩ | ⟨h1, h2⟩
        · exact Or.inl ⟨hneg.mpr h1, h2⟩
        · refine Or.inr ⟨?_, h2⟩
          rcases Bool.eq_false_or_eq_true s.negative with hb | hb
          · exact absurd (hneg.mp hb) (not_lt.mpr h1)
          · exact hb
      show (if (s.negative = true ∧ 0 < q) ∨ (s.negative = false ∧ q < 0) then s
        else Allocation.commit s (s.cols.indexOf cat) q) = s
      rw [if_pos hcond]
    · rw [if_neg hmem]

/-- Witness for C5: on a fresh allocation for a `-1.25` transaction
(sign-flipped original `1.25`), allocating `-1` is wrong-signed and the
state is unchanged. -/
theorem C5_witness :
    (Allocation.init ["ap","pc"] (-5/4)).allocate_amount "ap" (some (AmountArg.num (-1)))
      = Allocation.init ["ap","pc"] (-5/4) :=
  C5_invalid_noop _ _ _ (init_negative_iff _ _)
    (Or.inr (Or.inr ⟨-1, rfl, Or.inr ⟨by norm_num [Allocation.init], by norm_num⟩⟩))

/-- C6: when a same-signed requested amount overshoots the remainder in
magnitude, the amount actually applied is exactly the current remainder,
and the new remainder is the previously allocated amount of that category
rounded to two decimals. -/
theorem C6_clamp (s : Allocation) (cat : String) (q : ℚ)
    (hmem : cat ∈ s.cols)
    (hlen : s.allocation.length = s.cols.length)
    (hneg : s.negative = true ↔ s.amount_orig < 0)
    (hsign : (s.amount_orig < 0 ∧ q ≤ 0 ∧ s.amount_curr ≤ 0) ∨
             (0 ≤ s.amount_orig ∧ 0 ≤ q ∧ 0 ≤ s.amount_curr))
    (hover : |s.amount_curr| < |q|) :
    (s.allocate_amount cat (some (AmountArg.num q))).allocation.getD (s.cols.indexOf cat) 0
        = s.amount_curr ∧
    (s.allocate_amount cat (some (AmountArg.num q))).amount_curr
        = round2 (s.allocation.getD (s.cols.indexOf cat) 0) := by
  have hi : s.cols.indexOf cat < s.allocation.length := by
    rw [hlen]; exact indexOf_lt_length_of_mem hmem
  unfold Allocation.allocate_amount
  rw [if_pos hmem]
  rcases hsign with ⟨ho, hq, hc⟩ | ⟨ho, hq, hc⟩
  · have hb : s.negative = true := hneg.mpr ho
    have hqc : q < s.amount_curr := by
      rw [abs_of_nonpos hc, abs_of_nonpos hq] at hover
      linarith
    have hcond : ¬ ((s.negative = true ∧ 0 < q) ∨ (s.negative = false ∧ q < 0)) := by
      rintro (⟨_, h2⟩ | ⟨h1, _⟩)
      · linarith
      · exact Bool.noConfusion (hb.symm.trans h1)
    show ((if (s.negative = true ∧ 0 < q) ∨ (s.negative = false ∧ q < 0) then s
        else Allocation.commit s (s.cols.indexOf cat) q)).allocation.getD
          (s.cols.indexOf cat) 0 = s.amount_curr ∧
      ((if (s.negative = true ∧ 0 < q) ∨ (s.negative = false ∧ q < 0) then s
        else Allocation.commit s (s.cols.indexOf cat) q)).amount_curr
          = round2 (s.allocation.getD (s.cols.indexOf cat) 0)
    rw [if_neg hcond]
    unfold Allocation.commit
    rw [if_pos ⟨hb, hqc⟩]
    refine ⟨getD_set_self _ _ _ hi, ?_⟩
    show round2 (s.amount_curr + s.allocation.getD (s.cols.indexOf cat) 0 - s.amount_curr)
      = round2 (s.allocation.getD (s.cols.indexOf cat) 0)
    congr 1
    ring
  · have hb : s.negative = false := by
      rcases Bool.eq_false_or_eq_true s.negative with ht | hf
      · exact absurd (hneg.mp ht) (not_lt.mpr ho)
      · exact hf
    have hqc : s.amount_curr < q := by
      rw [abs_of_nonneg hc, abs_of_nonneg hq] at hover
      exact hover
    have hcond : ¬ ((s.negative = true ∧ 0 < q) ∨ (s.negative = false ∧ q < 0)) := by
      rintro (⟨h1, _⟩ | ⟨_, h2⟩)
      · exact Bool.noConfusion (hb.symm.trans h1)
      · linarith
    show ((if (s.negative = true ∧ 0 < q) ∨ (s.negative = false ∧ q < 0) then s
        else Allocation.commit s (s.cols.indexOf cat) q)).allocation.getD
          (s.cols.indexOf cat) 0 = s.amount_curr ∧
      ((if (s.negative = true ∧ 0 < q) ∨ (s.negative = false ∧ q < 0) then s
        else Allocation.commit s (s.cols.indexOf cat) q)).amount_curr
          = round2 (s.allocation.getD (s.cols.indexOf cat) 0)
    rw [if_neg hcond]
    unfold Allocation.commit
    have hnc : ¬ (s.negative = true ∧ q < s.amount_curr) := by
      rintro ⟨h1, _⟩
      exact Bool.noConfusion (hb.symm.trans h1)
    rw [if_neg hnc, if_pos ⟨hb, hqc⟩]
    refine ⟨getD_set_self _ _ _ hi, ?_⟩
    show round2 (s.amount_curr + s.allocation.getD (s.cols.indexOf cat) 0 - s.amount_curr)
      = round2 (s.allocation.getD (s.cols.indexOf cat) 0)
    congr 1
    ring

/-- Witness for C6: on transaction amount `1.25` (sign-flipped remainder
`-1.25`), `allocate_amount(cat, -12.50)` stores `-1.25` in the category
and leaves remainder `0`. -/
theorem C6_witness :
    ((Allocation.init ["ap","pc"] (5/4)).allocate_amount "ap"
        (some (AmountArg.num (-25/2)))).allocation.getD 0 0 = -5/4 ∧
    ((Allocation.init ["ap","pc"] (5/4)).allocate_amount "ap"
        (some (AmountArg.num (-25/2)))).amount_curr = 0 := by
  have hover : |(Allocation.init ["ap","pc"] (5/4)).amount_curr| < |(-25/2 : ℚ)| := by
    rw [show (Allocation.init ["ap","pc"] (5/4)).amount_curr = -(5/4) from rfl,
      abs_of_nonpos (by norm_num), abs_of_nonpos (by norm_num)]
    norm_num
  have h := C6_clamp (Allocation.init ["ap","pc"] (5/4)) "ap" (-25/2)
    (by decide) (by simp [Allocation.init]) (init_negative_iff _ _)
    (Or.inl ⟨by norm_num [Allocation.init], by norm_num, by norm_num [Allocation.init]⟩)
    hover
  have hcols : (Allocation.init ["ap","pc"] (5/4)).cols = ["ap","pc"] := rfl
  have hidx : List.indexOf "ap" ["ap","pc"] = 0 := by decide
  rw [hcols, hidx] at h
  refine ⟨h.1.trans (by norm_num [Allocation.init]), h.2.trans ?_⟩
  have hz : (Allocation.init ["ap","pc"] (5/4)).allocation.getD 0 0 = 0 := rfl
  rw [hz, round2_cent isCent_zero]

/-- With an initialized category set, `Transaction.make` reduces to the
three validation checks. -/
theorem Transaction.make_some (cols : List String) (e : RawEntry) :
    Transaction.make (some cols) e =
      (if e.trntype ≠ "CREDIT" ∧ e.trntype ≠ "DEBIT" then
        Except.error "Error: Unknown transaction type."
      else if e.trntype = "CREDIT" ∧ e.trnamt.val < 0 then
        Except.error "Error: Negative credit detected!"
      else if e.trntype = "DEBIT" ∧ 0 < e.trnamt.val then
        Except.error "Error: Positive debit detected!"
      else Except.ok { fitid := e.fitid, dtposted := e.dtposted, trntype := e.trntype,
                       trnamt := e.trnamt, name := e.name, memo := e.memo,
                       allocation := Allocation.init cols e.trnamt.val }) := rfl

/-- C7: with an initialized category set, `Transaction` construction fails
exactly when the direction is neither `CREDIT` nor `DEBIT`, when it is
`CREDIT` with a negative amount, or when it is `DEBIT` with a positive
amount; a zero amount is accepted with either direction. -/
theorem C7_validation (cols : List String) (e : RawEntry) :
    ((Transaction.make (some cols) e).isOk = false ↔
      ((e.trntype ≠ "CREDIT" ∧ e.trntype ≠ "DEBIT") ∨
       (e.trntype = "CREDIT" ∧ e.trnamt.val < 0) ∨
       (e.trntype = "DEBIT" ∧ 0 < e.trnamt.val))) ∧
    (e.trnamt.val = 0 → (e.trntype = "CREDIT" ∨ e.trntype = "DEBIT") →
      (Transaction.make (some cols) e).isOk = true) := by
  rw [Transaction.make_some]
  constructor
  · constructor
    · intro hfail
      by_cases h1 : e.trntype ≠ "CREDIT" ∧ e.trntype ≠ "DEBIT"
      · exact Or.inl h1
      by_cases h2 : e.trntype = "CREDIT" ∧ e.trnamt.val < 0
      · exact Or.inr (Or.inl h2)
      by_cases h3 : e.trntype = "DEBIT" ∧ 0 < e.trnamt.val
      · exact Or.inr (Or.inr h3)
      rw [if_neg h1, if_neg h2, if_neg h3] at hfail
      simp [Except.isOk, Except.toBool] at hfail
    · intro hd
      rcases hd with h1 | h2 | h3
      · rw [if_pos h1]; rfl
      · have h1 : ¬ (e.trntype ≠ "CREDIT" ∧ e.trntype ≠ "DEBIT") := by
          rintro ⟨ha, _⟩; exact ha h2.1
        rw [if_neg h1, if_pos h2]; rfl
      · have h1 : ¬ (e.trntype ≠ "CREDIT" ∧ e.trntype ≠ "DEBIT") := by
          rintro ⟨_, hb⟩; exact hb h3.1
        have h2 : ¬ (e.trntype = "CREDIT" ∧ e.trnamt.val < 0) := by
          rintro ⟨ha, _⟩
          rw [h3.1] at ha
          simp at ha
        rw [if_neg h1, if_neg h2, if_pos h3]; rfl
  · intro hz hdir
    have h1 : ¬ (e.trntype ≠ "CREDIT" ∧ e.trntype ≠ "DEBIT") := by
      rintro ⟨ha, hb⟩
      rcases hdir with h | h
      · exact ha h
      · exact hb h
    have h2 : ¬ (e.trntype = "CREDIT" ∧ e.trnamt.val < 0) := by
      rintro ⟨_, hb⟩
      rw [hz] at hb
      exact lt_irrefl 0 hb
    have h3 : ¬ (e.trntype = "DEBIT" ∧ 0 < e.trnamt.val) := by
      rintro ⟨_, hb⟩
      rw [hz] at hb
      exact lt_irrefl 0 hb
    rw [if_neg h1, if_neg h2, if_neg h3]
    rfl

/-- Witness for C7: a zero-amount `CREDIT` entry constructs successfully. -/
theorem C7_witness :
    (Transaction.make (some ["ap","pc"])
      { fitid := "F1", dtposted := "2024-11-01T12:00:00+00:00", trntype := "CREDIT",
        trnamt := { text := "0.0", val := 0 }, name := some "N", memo := none }).isOk
      = true :=
  (C7_validation ["ap","pc"] _).2 rfl (Or.inl rfl)

/-- C8: constructing an `Allocation` fails when no category set has been
established; otherwise the new state has sign-flipped original amount
`-a`, remainder `-a`, every category amount zero, allocated sum `0`, and
zero remainder exactly when `a = 0`. -/
theorem C8_construction (a : ℚ) (cols : List String) :
    Allocation.init? none a = none ∧
    Allocation.init? (some cols) a = some (Allocation.init cols a) ∧
    (Allocation.init cols a).amount_orig = -a ∧
    (Allocation.init cols a).amount_curr = -a ∧
    (∀ q ∈ (Allocation.init cols a).allocation, q = 0) ∧
    (Allocation.init cols a).allocation.length = cols.length ∧
    (Allocation.init cols a).get_allocations_sum = 0 ∧
    ((Allocation.init cols a).amount_curr = 0 ↔ a = 0) := by
  refine ⟨rfl, rfl, rfl, rfl, ?_, by simp [Allocation.init], ?_, ?_⟩
  · intro q hq
    exact List.eq_of_mem_replicate hq
  · show round2 (List.replicate cols.length (0:ℚ)).sum = 0
    rw [List.sum_replicate, smul_zero, round2_cent isCent_zero]
  · show -a = 0 ↔ a = 0
    exact neg_eq_zero

/-- Witness for C8: instantiated at amount `1.25` and a two-category
set. -/
theorem C8_witness :
    Allocation.init? none (5/4) = none ∧
    (Allocation.init ["ap","pc"] (5/4)).amount_curr = -(5/4) ∧
    (Allocation.init ["ap","pc"] (5/4)).get_allocations_sum = 0 :=
  ⟨(C8_construction (5/4) ["ap","pc"]).1,
   (C8_construction (5/4) ["ap","pc"]).2.2.2.1,
   (C8_construction (5/4) ["ap","pc"]).2.2.2.2.2.2.1⟩

/-- The run used to refute the unrestricted tolerance claim: four
sub-cent allocations of `0.004` against a transaction of amount `-1.00`
(sign-flipped original `1.00`). -/
def driftCalls : List (String × Option AmountArg) :=
  [("a", some (AmountArg.num (1/250))), ("b", some (AmountArg.num (1/250))),
   ("c", some (AmountArg.num (1/250))), ("d", some (AmountArg.num (1/250)))]

/-- The state after running `driftCalls` on a fresh allocation for
amount `-1`. -/
def driftRun : Allocation := (Allocation.init ["a","b","c","d"] (-1)).run driftCalls

/-- C1 fails as stated: after the fourth of four valid same-signed calls
allocating `0.004` each on a `-1.00` transaction, the remainder is `1.00`
and the rounded allocation sum is `0.02`, so remainder plus rounded sum is
`1.02`, off the sign-flipped original `1.00` by `0.02 > 0.01`. -/
theorem C1_counterexample :
    driftRun.amount_curr = 1 ∧
    round2 driftRun.allocation.sum = 1/50 ∧
    ¬ |driftRun.amount_curr + round2 driftRun.allocation.sum - -(-1)| ≤ 1/100 := by
  have h0 : Allocation.init ["a","b","c","d"] (-1)
      = ⟨["a","b","c","d"], [0,0,0,0], false, 1, 1⟩ := by
    simp [Allocation.init, List.replicate_succ]
  have h1 : Allocation.allocate_amount ⟨["a","b","c","d"], [0,0,0,0], false, 1, 1⟩ "a"
      (some (AmountArg.num (1/250))) = ⟨["a","b","c","d"], [1/250,0,0,0], false, 1, 1⟩ := by
    simp only [Allocation.allocate_amount, Allocation.commit]
    norm_num [round2, roundHalfEven]
  have h2 : Allocation.allocate_amount ⟨["a","b","c","d"], [1/250,0,0,0], false, 1, 1⟩ "b"
      (some (AmountArg.num (1/250))) = ⟨["a","b","c","d"], [1/250,1/250,0,0], false, 1, 1⟩ := by
    simp only [Allocation.allocate_amount, Allocation.commit,
      show List.indexOf "b" ["a","b","c","d"] = 1 from by decide]
    norm_num [round2, roundHalfEven]
  have h3 : Allocation.allocate_amount ⟨["a","b","c","d"], [1/250,1/250,0,0], false, 1, 1⟩ "c"
      (some (AmountArg.num (1/250)))
      = ⟨["a","b","c","d"], [1/250,1/250,1/250,0], false, 1, 1⟩ := by
    simp only [Allocation.allocate_amount, Allocation.commit,
      show List.indexOf "c" ["a","b","c","d"] = 2 from by decide]
    norm_num [round2, roundHalfEven]
  have h4 : Allocation.allocate_amount ⟨["a","b","c","d"], [1/250,1/250,1/250,0], false, 1, 1⟩
      "d" (some (AmountArg.num (1/250)))
      = ⟨["a","b","c","d"], [1/250,1/250,1/250,1/250], false, 1, 1⟩ := by
    simp only [Allocation.allocate_amount, Allocation.commit,
      show List.indexOf "d" ["a","b","c","d"] = 3 from by decide]
    norm_num [round2, roundHalfEven]
  have hrun : driftRun = ⟨["a","b","c","d"], [1/250,1/250,1/250,1/250], false, 1, 1⟩ := by
    unfold driftRun driftCalls Allocation.run
    simp only [List.foldl_cons, List.foldl_nil]
    rw [h0, h1, h2, h3, h4]
  rw [hrun]
  have hsum : round2 ([1/250, 1/250, 1/250, 1/250] : List ℚ).sum = 1/50 := by
    norm_num [round2, roundHalfEven]
  refine ⟨rfl, hsum, ?_⟩
  show ¬ |(1 : ℚ) + round2 ([1/250, 1/250, 1/250, 1/250] : List ℚ).sum - -(-1)| ≤ 1/100
  rw [hsum, show (1 : ℚ) + 1/50 - -(-1) = 1/50 by ring, abs_of_pos (by norm_num)]
  norm_num

/-- C1 (amended): for an allocation created from a whole-cent amount `a`,
and any sequence of `allocate_amount` calls, valid or invalid, whose
parseable amount arguments are whole cents, after every call the remainder
plus the rounded allocation sum equals the sign-flipped original `-a`
exactly, hence within the `0.01` tolerance, and every non-zero entry of
the allocation vector strictly shares the sign of `-a`.  (The unrestricted
claim fails for sub-cent amounts: see the counterexample.) -/
theorem C1_amended (a : ℚ) (cols : List String)
    (calls : List (String × Option AmountArg))
    (ha : isCent a)
    (hcent : ∀ c ∈ calls, ∀ q, c.2 = some (AmountArg.num q) → isCent q) :
    ((Allocation.init cols a).run calls).amount_curr +
        round2 ((Allocation.init cols a).run calls).allocation.sum = -a ∧
    |((Allocation.init cols a).run calls).amount_curr +
        round2 ((Allocation.init cols a).run calls).allocation.sum - -a| ≤ 1/100 ∧
    ∀ q ∈ ((Allocation.init cols a).run calls).allocation, q ≠ 0 →
      ((0 < q ↔ 0 < -a) ∧ (q < 0 ↔ -a < 0)) := by
  have hinv : Inv (-a) ((Allocation.init cols a).run calls) :=
    (Inv.init cols a ha).run calls hcent
  have hsum : ((Allocation.init cols a).run calls).allocation.sum
      = -a - ((Allocation.init cols a).run calls).amount_curr := by
    have := hinv.sumEq
    linarith
  have hsum_cent : isCent ((Allocation.init cols a).run calls).allocation.sum := by
    rw [hsum]
    exact isCent_sub (isCent_neg ha) hinv.cent_curr
  have hmain : ((Allocation.init cols a).run calls).amount_curr +
      round2 ((Allocation.init cols a).run calls).allocation.sum = -a := by
    rw [round2_cent hsum_cent]
    exact hinv.sumEq
  refine ⟨hmain, ?_, hinv.sign_strict⟩
  rw [hmain]
  simp

/-- Witness for C1 (amended): a `-1.25` transaction with a single
whole-cent allocation of `1.00` keeps the invariant exactly. -/
theorem C1_witness :
    isCent (-5/4 : ℚ) ∧
    ((Allocation.init ["ap","pc"] (-5/4)).run [("ap", some (AmountArg.num 1))]).amount_curr +
      round2 ((Allocation.init ["ap","pc"] (-5/4)).run
        [("ap", some (AmountArg.num 1))]).allocation.sum = -(-5/4) :=
  ⟨⟨-125, by norm_num⟩,
   (C1_amended (-5/4) ["ap","pc"] [("ap", some (AmountArg.num 1))] ⟨-125, by norm_num⟩
     (by
       intro c hc q hq
       rw [List.mem_singleton] at hc
       subst hc
       simp only at hq
       injection hq with h
       injection h with h2
       rw [← h2]
       exact ⟨100, by norm_num⟩)).1⟩

/-- C2 fails as stated: allocating `1.0` then `2.0` to the same category
on a `-1.25` transaction stores `0.25` — `2.0` clamped to the pre-recovery
remainder `0.25` — not `1.25`, the value of "2.0 clamped to the remainder
with the previously allocated 1.0 first added back". -/
theorem C2_counterexample :
    (((Allocation.init ["ap","pc"] (-5/4)).allocate_amount "ap"
        (some (AmountArg.num 1))).allocate_amount "ap"
        (some (AmountArg.num 2))).allocation.getD 0 0 = 1/4 ∧
    (((Allocation.init ["ap","pc"] (-5/4)).allocate_amount "ap"
        (some (AmountArg.num 1))).allocate_amount "ap"
        (some (AmountArg.num 2))).allocation.getD 0 0 ≠ 5/4 := by
  have h0 : Allocation.init ["ap","pc"] (-5/4) = ⟨["ap","pc"], [0,0], false, 5/4, 5/4⟩ := by
    simp [Allocation.init, List.replicate_succ]
    norm_num
  have h1 : Allocation.allocate_amount ⟨["ap","pc"], [0,0], false, 5/4, 5/4⟩ "ap"
      (some (AmountArg.num 1)) = ⟨["ap","pc"], [1,0], false, 5/4, 1/4⟩ := by
    simp only [Allocation.allocate_amount, Allocation.commit]
    norm_num [round2, roundHalfEven]
  have h2 : Allocation.allocate_amount ⟨["ap","pc"], [1,0], false, 5/4, 1/4⟩ "ap"
      (some (AmountArg.num 2)) = ⟨["ap","pc"], [1/4,0], false, 5/4, 1⟩ := by
    simp only [Allocation.allocate_amount, Allocation.commit]
    norm_num [round2, roundHalfEven]
  rw [h0, h1, h2]
  norm_num

/-- C2 (amended): re-allocating the same category replaces rather than
accumulates, with the clamp applied to the pre-recovery remainder: on a
`-1.25` transaction, allocating `1.0` then `2.0` to the same category
yields the category value `0.25` (`2.0` clamped to the remainder `0.25`
before the previous `1.0` is added back), remainder `1.00` — neither `3.0`
nor `1.25`. -/
theorem C2_theorem :
    (((Allocation.init ["ap","pc"] (-5/4)).allocate_amount "ap"
        (some (AmountArg.num 1))).allocate_amount "ap"
        (some (AmountArg.num 2))).allocation.getD 0 0 = 1/4 ∧
    (((Allocation.init ["ap","pc"] (-5/4)).allocate_amount "ap"
        (some (AmountArg.num 1))).allocate_amount "ap"
        (some (AmountArg.num 2))).amount_curr = 1 ∧
    (((Allocation.init ["ap","pc"] (-5/4)).allocate_amount "ap"
        (some (AmountArg.num 1))).allocate_amount "ap"
        (some (AmountArg.num 2))).allocation.sum ≠ 3 := by
  have h0 : Allocation.init ["ap","pc"] (-5/4) = ⟨["ap","pc"], [0,0], false, 5/4, 5/4⟩ := by
    simp [Allocation.init, List.replicate_succ]
    norm_num
  have h1 : Allocation.allocate_amount ⟨["ap","pc"], [0,0], false, 5/4, 5/4⟩ "ap"
      (some (AmountArg.num 1)) = ⟨["ap","pc"], [1,0], false, 5/4, 1/4⟩ := by
    simp only [Allocation.allocate_amount, Allocation.commit]
    norm_num [round2, roundHalfEven]
  have h2 : Allocation.allocate_amount ⟨["ap","pc"], [1,0], false, 5/4, 1/4⟩ "ap"
      (some (AmountArg.num 2)) = ⟨["ap","pc"], [1/4,0], false, 5/4, 1⟩ := by
    simp only [Allocation.allocate_amount, Allocation.commit]
    norm_num [round2, roundHalfEven]
  rw [h0, h1, h2]
  norm_num

/-- A later-dated transaction, iterated first in the C3 counterexample. -/
def txnLate : Transaction :=
  { fitid := "Redacted4", dtposted := "2024-11-06T12:00:00+00:00", trntype := "DEBIT",
    trnamt := { text := "-49.6", val := -248/5 }, name := some "Transaction 4",
    memo := some "Memo for Transaction 4",
    allocation := Allocation.init ["ap","pc"] (-248/5) }

/-- An earlier-dated transaction, iterated second. -/
def txnEarly : Transaction :=
  { fitid := "Redacted3", dtposted := "2024-11-05T12:00:00+00:00", trntype := "DEBIT",
    trnamt := { text := "-15.96", val := -399/25 }, name := some "Transaction 3",
    memo := some "Memo for Transaction 3",
    allocation := Allocation.init ["ap","pc"] (-399/25) }

/-- C3 fails as stated: when a later-dated transaction is iterated before
an earlier-dated one, the rows handed to the ledger writer keep that
iteration order and are not sorted by posting timestamp ascending. -/
theorem C3_counterexample :
    writeOfxTransactionsBody (allocateOfxTransactions [] [txnLate, txnEarly] (fun _ => []))
      = [txnLate.to_list, txnEarly.to_list] ∧
    ¬ List.Pairwise dtpostedLe
        (writeOfxTransactionsBody
          (allocateOfxTransactions [] [txnLate, txnEarly] (fun _ => []))) := by
  have hrows : writeOfxTransactionsBody
      (allocateOfxTransactions [] [txnLate, txnEarly] (fun _ => []))
      = [txnLate.to_list, txnEarly.to_list] := by
    simp [writeOfxTransactionsBody, allocateOfxTransactions]
  refine ⟨hrows, ?_⟩
  rw [hrows]
  intro hpair
  have h : dtpostedLe txnLate.to_list txnEarly.to_list :=
    (List.pairwise_cons.mp hpair).1 _ (List.mem_cons_self _ _)
  revert h
  unfold dtpostedLe Transaction.to_list txnLate txnEarly
  decide

/-- C3 (amended): the rows handed to the ledger writer are exactly the
rows of the non-duplicate transactions in iteration order — a stable
filter of the input sequence with no re-sort by posting timestamp. -/
theorem C3_amended (worksheet : List (List (Option String))) (ts : List Transaction)
    (alloc : Transaction → List (Option String)) :
    writeOfxTransactionsBody (allocateOfxTransactions worksheet ts alloc) =
      (ts.filter fun t => decide (¬ t.to_list ∈ worksheet)).map
        (fun t => t.to_list ++ alloc t) := by
  unfold writeOfxTransactionsBody allocateOfxTransactions
  simpa using allocateOfx_foldl_acc worksheet ts alloc []

/-- The worksheet header row, as returned by the sheet read. -/
def hdrRow : List (Option String) := TRANSACTION_COLUMNS.map some

/-- The candidate transaction of the C9 examples. -/
def candA : Transaction :=
  { fitid := "A", dtposted := "T1", trntype := "CREDIT",
    trnamt := { text := "5.00", val := 5 }, name := some "N", memo := none,
    allocation := Allocation.init ["ap","pc"] 5 }

/-- The same candidate with only the amount changed. -/
def candB : Transaction :=
  { fitid := "A", dtposted := "T1", trntype := "CREDIT",
    trnamt := { text := "5.01", val := 501/100 }, name := some "N", memo := none,
    allocation := Allocation.init ["ap","pc"] (501/100) }

/-- C9: the reconciliation filter excludes a candidate exactly when its
full six-cell field tuple appears verbatim among the recorded rows after
right-padding short rows with `None`; an identical candidate is excluded
as a duplicate, a candidate differing only in amount survives as new, and
a recorded row missing its trailing memo cell matches a candidate whose
memo is absent. -/
theorem C9_reconciliation :
    (∀ (fetched : List (List (Option String))) (ts : List Transaction)
        (alloc : Transaction → List (Option String)),
      allocateOfxTransactions (getStatementWorksheetTransactions fetched) ts alloc =
        (ts.filter fun t =>
          decide (¬ t.to_list ∈ (fetched.drop 1).map padRow)).map
            (fun t => t.to_list ++ alloc t)) ∧
    allocateOfxTransactions
        (getStatementWorksheetTransactions
          [hdrRow, [some "A", some "T1", some "CREDIT", some "5.00", some "N", none]])
        [candA] (fun _ => []) = [] ∧
    allocateOfxTransactions
        (getStatementWorksheetTransactions
          [hdrRow, [some "A", some "T1", some "CREDIT", some "5.00", some "N", none]])
        [candB] (fun _ => []) = [candB.to_list] ∧
    allocateOfxTransactions
        (getStatementWorksheetTransactions
          [hdrRow, [some "A", some "T1", some "CREDIT", some "5.00", some "N"]])
        [candA] (fun _ => []) = [] := by
  refine ⟨?_, ?_, ?_, ?_⟩
  · intro fetched ts alloc
    unfold allocateOfxTransactions getStatementWorksheetTransactions
    simpa using allocateOfx_foldl_acc ((fetched.drop 1).map padRow) ts alloc []
  · unfold allocateOfxTransactions getStatementWorksheetTransactions padRow
      TRANSACTION_COLUMNS hdrRow candA Transaction.to_list
    decide
  · unfold allocateOfxTransactions getStatementWorksheetTransactions padRow
      TRANSACTION_COLUMNS hdrRow candB Transaction.to_list
    decide
  · unfold allocateOfxTransactions getStatementWorksheetTransactions padRow
      TRANSACTION_COLUMNS hdrRow candA Transaction.to_list
    decide

/-- The operator script of the C4 scenario: allocate `10.00` to `ap`,
then the remainder to `pc`. -/
def c4Script : List InputLine :=
  [InputLine.two "ap" (AmtToken.num 10), InputLine.one "pc"]

/-- Evaluation of the C4 run: `_get_allocations` on the sign-flipped
amount `15.96` with the C4 script returns `[10.0, 5.96, '']`. -/
theorem c4_run_eval :
    getAllocations ["ap","pc","af"] (399/25) c4Script
      = some (Except.ok [some 10, some (149/25), none]) := by
  have h1 : getAllocStep ["ap","pc","af"] false ⟨[0,0,0], 399/25⟩
      (InputLine.two "ap" (AmtToken.num 10)) = ⟨[10,0,0], 149/25⟩ := by
    simp only [getAllocStep,
      show (("ap" : String) = "?") = False from by simp,
      show (("ap" : String) ∈ (["ap","pc","af"] : List String)) = True from by simp]
    norm_num [round2, roundHalfEven]
  have h2 : getAllocStep ["ap","pc","af"] false ⟨[10,0,0], 149/25⟩
      (InputLine.one "pc") = ⟨[10, 149/25, 0], 0⟩ := by
    simp only [getAllocStep, show List.indexOf "pc" ["ap","pc","af"] = 1 from by decide,
      show (("pc" : String) = "?") = False from by simp,
      show (("pc" : String) ∈ (["ap","pc","af"] : List String)) = True from by simp]
    norm_num [round2, roundHalfEven]
  have hrun : getAllocRun ["ap","pc","af"] false ⟨[0,0,0], 399/25⟩ c4Script
      = ⟨[10, 149/25, 0], 0⟩ := by
    unfold c4Script
    simp only [getAllocRun]
    rw [if_neg (by norm_num : ¬ (AllocLoopState.mk [0,0,0] (399/25)).amount = 0), h1,
      if_neg (by norm_num : ¬ (AllocLoopState.mk [10,0,0] (149/25)).amount = 0), h2]
  have hneg : (decide ((399/25 : ℚ) < 0)) = false := by
    rw [decide_eq_false_iff_not]
    norm_num
  have hsum : round2 ([10, 149/25, 0] : List ℚ).sum = 399/25 := by
    have hs : ([10, 149/25, 0] : List ℚ).sum = 399/25 := by
      simp [List.sum_cons]
      norm_num
    rw [hs]
    exact round2_cent ⟨1596, by norm_num⟩
  unfold getAllocations
  dsimp only
  rw [hneg, show List.replicate (["ap","pc","af"] : List String).length (0:ℚ) = [0,0,0]
    from rfl, hrun]
  show (if ((⟨[10, 149/25, 0], 0⟩ : AllocLoopState)).amount = 0 then
      if round2 ((⟨[10, 149/25, 0], 0⟩ : AllocLoopState)).allocations.sum ≠ 399/25 then
        some (Except.error "Error: Transaction incorrectly allocated")
      else some (Except.ok (((⟨[10, 149/25, 0], 0⟩ : AllocLoopState)).allocations.map
        (fun x => if x = 0 then none else some x)))
    else none) = some (Except.ok [some 10, some (149/25), none])
  rw [if_pos rfl]
  rw [if_neg (by
    show ¬ round2 ([10, 149/25, 0] : List ℚ).sum ≠ 399/25
    rw [hsum]
    simp)]
  simp only [List.map_cons, List.map_nil]
  norm_num

/-- C4 fails as stated: with category set `["ap","pc","af"]` and a DEBIT
of `-15.96`, allocating `10.00` to `ap` and then the remainder to `pc`
yields the output vector `[10.0, 5.96, '']`, not `[10.00, -5.96, '']`,
and the allocated sum is `15.96`, the sign-flipped amount, not `-15.96`. -/
theorem C4_counterexample :
    getAllocations ["ap","pc","af"] (399/25) c4Script
      = some (Except.ok [some 10, some (149/25), none]) ∧
    getAllocations ["ap","pc","af"] (399/25) c4Script
      ≠ some (Except.ok [some 10, some (-149/25), none]) ∧
    round2 ([10, 149/25, 0] : List ℚ).sum = 399/25 ∧
    (399/25 : ℚ) ≠ -399/25 := by
  refine ⟨c4_run_eval, ?_, ?_, by norm_num⟩
  · rw [c4_run_eval]
    intro h
    simp only [Option.some.injEq] at h
    have h2 := Except.ok.inj h
    have h3 : ((149:ℚ)/25) = -149/25 := by
      have := List.cons.inj h2
      have := List.cons.inj this.2
      exact Option.some.inj this.1
    norm_num at h3
  · have : ([10, 149/25, 0] : List ℚ).sum = 399/25 := by
      simp [List.sum_cons]
      norm_num
    rw [this]
    exact round2_cent ⟨1596, by norm_num⟩

/-- C4 (amended): the end-to-end scenario in the sign convention of the code:
the loop runs on the sign-flipped amount `-(-15.96) = 15.96`, the output
vector is `[10.0, 5.96, '']`, and the allocated sum equals the
sign-flipped original `15.96` (the integrity assertion compares against
the sign-flipped amount, not the raw transaction amount). -/
theorem C4_amended :
    getAllocations ["ap","pc","af"] (-(-399/25)) c4Script
      = some (Except.ok [some 10, some (149/25), none]) ∧
    round2 ([10, 149/25, 0] : List ℚ).sum = -(-399/25) := by
  have he : (-(-399/25) : ℚ) = 399/25 := by norm_num
  rw [he]
  refine ⟨c4_run_eval, ?_⟩
  have : ([10, 149/25, 0] : List ℚ).sum = 399/25 := by
    simp [List.sum_cons]
    norm_num
  rw [this]
  exact round2_cent ⟨1596, by norm_num⟩

/-- C10 fails in its final clause: with category value `p = 0.004 ≠ 0`
and remainder `r = 1.00 ≠ 0` of the same sign, a defaulted re-allocation
of the same category leaves remainder `round2(0.004) = 0`, so the
transaction IS fully allocated although `p` was non-zero. -/
theorem C10_counterexample :
    ((Allocation.init ["ap","pc"] (-1)).allocate_amount "ap"
        (some (AmountArg.num (1/250)))).allocation.getD 0 0 = 1/250 ∧
    (1/250 : ℚ) ≠ 0 ∧
    ((Allocation.init ["ap","pc"] (-1)).allocate_amount "ap"
        (some (AmountArg.num (1/250)))).amount_curr = 1 ∧
    (0 : ℚ) < 1/250 ∧ (0 : ℚ) < 1 ∧
    (((Allocation.init ["ap","pc"] (-1)).allocate_amount "ap"
        (some (AmountArg.num (1/250)))).allocate_amount "ap" none).amount_curr = 0 := by
  have h0 : Allocation.init ["ap","pc"] (-1) = ⟨["ap","pc"], [0,0], false, 1, 1⟩ := by
    simp [Allocation.init, List.replicate_succ]
  have h1 : Allocation.allocate_amount ⟨["ap","pc"], [0,0], false, 1, 1⟩ "ap"
      (some (AmountArg.num (1/250))) = ⟨["ap","pc"], [1/250,0], false, 1, 1⟩ := by
    simp only [Allocation.allocate_amount, Allocation.commit]
    norm_num [round2, roundHalfEven]
  have h2 : Allocation.allocate_amount ⟨["ap","pc"], [1/250,0], false, 1, 1⟩ "ap" none
      = ⟨["ap","pc"], [1,0], false, 1, 0⟩ := by
    simp only [Allocation.allocate_amount, Allocation.commit]
    norm_num [round2, roundHalfEven]
  rw [h0, h1, h2]
  norm_num

/-- C10 (amended): a defaulted re-allocation of an already-allocated
category `c` (previous value `p`, remainder `r`, both non-zero, same
sign) stores the pre-recovery remainder `r` in `c` — not `r + p` — and
sets the remainder to `round2 p`; the transaction is then fully allocated
exactly when `p` rounds to zero at two decimals (not only when `p` was
zero). -/
theorem C10_amended (s : Allocation) (cat : String) (p r : ℚ)
    (hmem : cat ∈ s.cols)
    (hlen : s.allocation.length = s.cols.length)
    (hp : s.allocation.getD (s.cols.indexOf cat) 0 = p)
    (hr : s.amount_curr = r)
    (hp0 : p ≠ 0) (hr0 : r ≠ 0) (hpr : 0 < p * r)
    (hsc : (s.negative = true → s.amount_curr ≤ 0) ∧
           (s.negative = false → 0 ≤ s.amount_curr)) :
    (s.allocate_amount cat none).allocation.getD (s.cols.indexOf cat) 0 = r ∧
    (s.allocate_amount cat none).amount_curr = round2 p ∧
    ((s.allocate_amount cat none).amount_curr = 0 ↔ round2 p = 0) := by
  have hi : s.cols.indexOf cat < s.allocation.length := by
    rw [hlen]
    exact indexOf_lt_length_of_mem hmem
  unfold Allocation.allocate_amount
  rw [if_pos hmem]
  have hcond : ¬ ((s.negative = true ∧ 0 < s.amount_curr) ∨
      (s.negative = false ∧ s.amount_curr < 0)) := by
    rintro (⟨h1, h2⟩ | ⟨h1, h2⟩)
    · exact absurd (hsc.1 h1) (not_le.mpr h2)
    · exact absurd (hsc.2 h1) (not_le.mpr h2)
  show ((if (s.negative = true ∧ 0 < s.amount_curr) ∨
        (s.negative = false ∧ s.amount_curr < 0) then s
      else Allocation.commit s (s.cols.indexOf cat) s.amount_curr)).allocation.getD
        (s.cols.indexOf cat) 0 = r ∧
    ((if (s.negative = true ∧ 0 < s.amount_curr) ∨
        (s.negative = false ∧ s.amount_curr < 0) then s
      else Allocation.commit s (s.cols.indexOf cat) s.amount_curr)).amount_curr = round2 p ∧
    (((if (s.negative = true ∧ 0 < s.amount_curr) ∨
        (s.negative = false ∧ s.amount_curr < 0) then s
      else Allocation.commit s (s.cols.indexOf cat) s.amount_curr)).amount_curr = 0 ↔
      round2 p = 0)
  rw [if_neg hcond]
  unfold Allocation.commit
  rw [if_neg (by rintro ⟨_, h⟩; exact lt_irrefl _ h),
    if_neg (by rintro ⟨_, h⟩; exact lt_irrefl _ h)]
  have hval : round2 (s.amount_curr + s.allocation.getD (s.cols.indexOf cat) 0
      - s.amount_curr) = round2 p := by
    rw [hp]
    congr 1
    ring
  refine ⟨(getD_set_self _ _ _ hi).trans hr, hval, ?_⟩
  show round2 (s.amount_curr + s.allocation.getD (s.cols.indexOf cat) 0
      - s.amount_curr) = 0 ↔ round2 p = 0
  rw [hval]

/-- Witness for C10 (amended): with previous value `0.25` and remainder
`0.75`, the defaulted re-allocation stores `0.75` and leaves remainder
`round2 0.25 = 0.25`, which is non-zero. -/
theorem C10_witness :
    (Allocation.allocate_amount ⟨["ap","pc"], [1/4, 0], false, 1, 3/4⟩ "ap"
        none).allocation.getD (List.indexOf "ap" ["ap","pc"]) 0 = 3/4 ∧
    (Allocation.allocate_amount ⟨["ap","pc"], [1/4, 0], false, 1, 3/4⟩ "ap"
        none).amount_curr = 1/4 := by
  have h := C10_amended ⟨["ap","pc"], [1/4, 0], false, 1, 3/4⟩ "ap" (1/4) (3/4)
    (by decide) rfl rfl rfl (by norm_num) (by norm_num) (by norm_num)
    ⟨fun hb => Bool.noConfusion hb, fun _ => by norm_num⟩
  exact ⟨h.1, h.2.1.trans (round2_cent ⟨25, by norm_num⟩)⟩

end Ccct
